import Mathlib

/-!
Shallow embedding of the well-detection and intensity-tracking pipeline of
`multi-well-brightness-detector-rpi` (`src/well_analyzer.py`: region
detection, intensity sampling, peak extraction), together with the
orchestrator entry points `run_full_analysis` / `run_single_image_analysis`
called from `src/tabs/analysis_tab.py`, whose bodies are modelled from the
specification where the current-revision source is not available.

Grayscale images are lists of pixel rows (natural-number intensities);
intensity samples are rationals (the source uses floating-point means).
-/

/-- A grayscale frame: rows of pixel intensities (8-bit values in practice). -/
abbrev Image := List (List ℕ)

/-- An axis-aligned bounding rectangle `(x, y, w, h)` as returned by
`cv2.boundingRect`; one well ROI. -/
structure Roi where
  x : ℕ
  y : ℕ
  w : ℕ
  h : ℕ
deriving DecidableEq, Repr

/-- A contour, as consumed by `find_well_locations`: the code reads only
`cv2.contourArea(contour)` and `cv2.boundingRect(contour)`, so a contour is
modelled by those two library outputs. -/
structure Contour where
  area : ℚ
  x : ℕ
  y : ℕ
  w : ℕ
  h : ℕ
deriving DecidableEq, Repr

/-- `np.max` of a list of samples (the source only applies it to non-empty
data, guarded by `if not well_data: continue`). -/
def npMax : List ℚ → ℚ
  | [] => 0
  | [v] => v
  | v :: w :: rest => max v (npMax (w :: rest))

/-- `np.argmax` of a list of samples: the index of the first occurrence of
the maximum value (NumPy returns the first maximal index on ties). -/
def npArgmax : List ℚ → ℕ
  | [] => 0
  | [_] => 0
  | v :: w :: rest => if v < npMax (w :: rest) then npArgmax (w :: rest) + 1 else 0
/-- A peak record produced by `analyze_peaks` (the fields of the Python
dict, with `metric_mode` carried through verbatim). -/
structure PeakResult where
  well_id : ℕ
  intensity : ℚ
  frame : ℕ
  metric_mode : String
deriving DecidableEq, Repr

/-- The loop of `analyze_peaks`: iterate `enumerate(intensity_data)` with
running index `i`, `continue` on an empty series, otherwise append a record
with `intensity = np.max(well_data)` and
`frame = np.argmax(well_data) * sample_rate`. -/
def analyzePeaksGo (metric_mode : String) (sample_rate : ℕ) :
    List (List ℚ) → ℕ → List PeakResult
  | [], _ => []
  | [] :: rest, i => analyzePeaksGo metric_mode sample_rate rest (i + 1)
  | (v :: vs) :: rest, i =>
      { well_id := i, intensity := npMax (v :: vs),
        frame := npArgmax (v :: vs) * sample_rate, metric_mode := metric_mode }
        :: analyzePeaksGo metric_mode sample_rate rest (i + 1)

/-- `analyze_peaks` from `src/well_analyzer.py`. -/
def analyze_peaks (intensity_data : List (List ℚ)) (metric_mode : String)
    (sample_rate : ℕ) : List PeakResult :=
  analyzePeaksGo metric_mode sample_rate intensity_data 0

/-- NumPy 2-D slice `gray_frame[y:y+h, x:x+w]`: slices clamp at the array
bounds, so an out-of-range rectangle yields an empty array. -/
def sliceRegion (frame : Image) (r : Roi) : Image :=
  ((frame.drop r.y).take r.h).map (fun row => (row.drop r.x).take r.w)

/-- `well_region.size`: the number of pixels in a slice. -/
def regionSize (m : Image) : ℕ := (m.map List.length).sum

/-- Total of all pixel values in a slice. -/
def regionSum (m : Image) : ℕ := (m.map List.sum).sum

/-- `np.mean(well_region)`. -/
def regionMean (m : Image) : ℚ := (regionSum m : ℚ) / (regionSize m : ℚ)

/-- `np.max(well_region)` over the pixels of a slice. -/
def regionMax (m : Image) : ℕ := (m.map (fun row => row.foldr Nat.max 0)).foldr Nat.max 0

/-- Per-ROI body of the sampling loop in `track_well_intensities`:
`intensity = 0`, replaced by the mean (metric `'average'`), the max
(metric `'peak'`), or the mean again (any other string) when the slice
is non-empty (`well_region.size > 0`). -/
def roiIntensity (frame : Image) (r : Roi) (metric_mode : String) : ℚ :=
  let region := sliceRegion frame r
  if 0 < regionSize region then
    if metric_mode = "average" then regionMean region
    else if metric_mode = "peak" then (regionMax region : ℚ)
    else regionMean region
  else 0

/-- The frames the sampling loop processes: those whose running index
satisfies `frame_count % sample_rate == 0`. -/
def sampledFrames (frames : List Image) (sample_rate : ℕ) : List Image :=
  (frames.enum.filter (fun p => p.1 % sample_rate == 0)).map Prod.snd

/-- `track_well_intensities` from `src/well_analyzer.py`: starting from
`[[] for _ in well_rois]`, each sampled frame appends one intensity per ROI
to the ROI's series. -/
def track_well_intensities (frames : List Image) (well_rois : List Roi)
    (metric_mode : String) (sample_rate : ℕ) : List (List ℚ) :=
  (sampledFrames frames sample_rate).foldl
    (fun acc f =>
      List.zipWith (fun series r => series ++ [roiIntensity f r metric_mode]) acc well_rois)
    (well_rois.map (fun _ => ([] : List ℚ)))


/-- The comparison realised by `well_rois.sort(key=lambda r: (r[1], r[0]))`:
lexicographic on the sort key `(y, x)`. -/
def roiKeyLe (a b : Roi) : Prop := a.y < b.y ∨ (a.y = b.y ∧ a.x ≤ b.x)

instance : DecidableRel roiKeyLe := fun a b =>
  inferInstanceAs (Decidable (a.y < b.y ∨ (a.y = b.y ∧ a.x ≤ b.x)))

instance : IsTotal Roi roiKeyLe := ⟨by intro a b; unfold roiKeyLe; omega⟩

instance : IsTrans Roi roiKeyLe := ⟨by intro a b c; unfold roiKeyLe; omega⟩

/-- Contour-processing tail of `find_well_locations` in
`src/well_analyzer.py`: keep contours with `cv2.contourArea(contour) >
min_area`, take each survivor's bounding rectangle, and sort the rectangles
top-to-bottom then left-to-right (stable sort by key `(y, x)`). -/
def find_well_locations_rois (contours : List Contour) (min_area : ℚ) : List Roi :=
  List.insertionSort roiKeyLe
    ((contours.filter (fun c => decide (min_area < c.area))).map
      (fun c => Roi.mk c.x c.y c.w c.h))


/-- Modelled from the spec: the background-correction step of the
current-revision region detector (inside `run_full_analysis` /
`run_single_image_analysis` of `well_analyzer.py`, whose bodies are not in
the available source): subtract `background_level` from every pixel,
clamped at 0 (saturating subtraction, no wraparound). Natural-number
truncated subtraction is exactly this clamp. -/
def correct_image (img : Image) (background_level : ℕ) : Image :=
  img.map (fun row => row.map (fun p => p - background_level))

/-- Modelled from the spec: the 256-bin grayscale histogram of an image,
bin `v` counting the pixels of value `v`. -/
def histogram (img : Image) : List ℕ :=
  (List.range 256).map (fun v => (img.flatten.filter (fun p => p == v)).length)

/-- Pixel count of the class of bins `0..t` of a histogram. -/
def classCount (hist : List ℕ) (t : ℕ) : ℕ := (hist.take (t + 1)).sum

/-- Intensity-weighted pixel count of the class of bins `0..t`. -/
def classWeightedSum (hist : List ℕ) (t : ℕ) : ℕ :=
  ((hist.enum.map (fun p => p.1 * p.2)).take (t + 1)).sum

/-- Total pixel count of a histogram. -/
def totalCount (hist : List ℕ) : ℕ := hist.sum

/-- Total intensity-weighted pixel count of a histogram. -/
def totalWeightedSum (hist : List ℕ) : ℕ := (hist.enum.map (fun p => p.1 * p.2)).sum

/-- Modelled from the spec: Otsu's between-class variance for the cut that
puts bins `0..t` in the background class and the rest in the foreground
class: `w0 * w1 * (mu0 - mu1)^2` with `w = class count / total`; zero when
either class is empty. -/
def betweenClassVariance (hist : List ℕ) (t : ℕ) : ℚ :=
  let n0 : ℚ := classCount hist t
  let n1 : ℚ := (totalCount hist : ℚ) - n0
  let s0 : ℚ := classWeightedSum hist t
  let s1 : ℚ := (totalWeightedSum hist : ℚ) - s0
  if n0 = 0 ∨ n1 = 0 then 0
  else n0 * n1 * (s0 / n0 - s1 / n1) ^ 2 / (n0 + n1) ^ 2

/-- Modelled from the spec: automatic global threshold selection (Otsu):
the cut in `0..255`, first on ties, maximizing the between-class variance
of the histogram. -/
def otsuThreshold (hist : List ℕ) : ℕ :=
  npArgmax ((List.range 256).map (fun t => betweenClassVariance hist t))

/-- Binarization at threshold `t`: a pixel is foreground (255) iff
strictly above the cut, else background (0). -/
def binarize (img : Image) (t : ℕ) : Image :=
  img.map (fun row => row.map (fun p => if t < p then 255 else 0))

/-- Modelled from the spec: the Otsu binarization step of the
current-revision detector, thresholding at the cut chosen from the image's
own histogram. -/
def otsu_binarize (img : Image) : Image :=
  binarize img (otsuThreshold (histogram img))

/-- Modelled from the spec: one sequential read from the source either
decodes a frame or fails mid-stream; end-of-stream is the end of the read
list. -/
inductive ReadResult where
  | frame (f : Image)
  | fail
deriving DecidableEq

/-- Modelled from the spec: the error taxonomy surfaced by the
orchestrator: cannot open source, no regions detected, read failure
mid-stream. -/
inductive AnalyzerError where
  | cannotOpenSource
  | noRegionsDetected
  | midStreamReadError
deriving DecidableEq

/-- Modelled from the spec: one full forward pass over the source; a read
failure before end-of-stream aborts the pass with the mid-stream read
error and discards all frames decoded so far. -/
def readAllFrames : List ReadResult → Except AnalyzerError (List Image)
  | [] => Except.ok []
  | ReadResult.fail :: _ => Except.error AnalyzerError.midStreamReadError
  | ReadResult.frame f :: rest =>
      match readAllFrames rest with
      | Except.ok frames => Except.ok (f :: frames)
      | Except.error e => Except.error e

/-- A video source as seen through the reader collaborator: metadata plus
the sequence of read outcomes of one forward pass. -/
structure VideoSource where
  total_frames : ℕ
  fps : ℚ
  reads : List ReadResult
deriving DecidableEq

/-- Pixelwise maximum of two frames (`np.maximum`). -/
def imageMax (a b : Image) : Image :=
  List.zipWith (fun ra rb => List.zipWith Nat.max ra rb) a b

/-- The max-intensity projection of a frame sequence: the reference frame
for video, folding the pixelwise maximum over all frames. -/
def maxProjection : List Image → Image
  | [] => []
  | f :: rest => rest.foldl imageMax f

/-- Modelled from the spec: the current-revision region detector:
background-correct, Otsu-binarize, morphologically open, extract external
contours, then area-filter and sort as in `find_well_locations`. The
morphological opening and the contour extraction are OpenCV collaborators
and are passed in as functions. -/
def detect_regions (morphOpen : Image → Image) (findContours : Image → List Contour)
    (reference : Image) (background_level : ℕ) (min_area : ℚ) : List Roi :=
  find_well_locations_rois
    (findContours (morphOpen (otsu_binarize (correct_image reference background_level))))
    min_area

/-- Modelled from the spec: one sampling pass of the intensity sampler
over a source's reads: aborts with the read error when any frame fails to
decode (partial series are discarded, never returned), otherwise samples
all ROIs. -/
def sample_pass (reads : List ReadResult) (rois : List Roi) (mode : String)
    (s : ℕ) : Except AnalyzerError (List (List ℚ)) :=
  match readAllFrames reads with
  | Except.error e => Except.error e
  | Except.ok frames => Except.ok (track_well_intensities frames rois mode s)

/-- The populated-result half of the Results Package: the fields the GUI
consumers (`results_tab.py`, `main.py`) read. -/
structure ResultData where
  well_rois : List Roi
  average_intensity_data : List (List ℚ)
  peak_intensity_data : List (List ℚ)
  peak_results : List PeakResult
  total_frames : ℕ
  fps : ℚ
  sample_rate : ℕ

/-- The Results Package: an aggregate with a result slot and an error
slot. -/
structure ResultsPackage where
  result : Option ResultData
  error : Option AnalyzerError

/-- Modelled from the spec: `run_full_analysis`, the video entry point of
the orchestrator (called from `_video_analysis_thread_worker` in
`analysis_tab.py`): open the source, read all frames into the
max-intensity projection, detect regions, sample both metrics, extract
peaks for the selected metric, and package; every failure path returns a
package with only the error slot set. -/
def run_full_analysis (morphOpen : Image → Image) (findContours : Image → List Contour)
    (source : Option VideoSource) (background_level : ℕ) (min_area : ℚ)
    (metric_mode : String) (sample_rate : ℕ) : ResultsPackage :=
  match source with
  | none => { result := none, error := some AnalyzerError.cannotOpenSource }
  | some v =>
      match readAllFrames v.reads with
      | Except.error e => { result := none, error := some e }
      | Except.ok frames =>
          let rois := detect_regions morphOpen findContours (maxProjection frames)
              background_level min_area
          if rois = [] then
            { result := none, error := some AnalyzerError.noRegionsDetected }
          else
            let avg := track_well_intensities frames rois "average" sample_rate
            let pk := track_well_intensities frames rois "peak" sample_rate
            { result := some
                { well_rois := rois,
                  average_intensity_data := avg,
                  peak_intensity_data := pk,
                  peak_results :=
                    analyze_peaks (if metric_mode = "peak" then pk else avg)
                      metric_mode sample_rate,
                  total_frames := v.total_frames,
                  fps := v.fps,
                  sample_rate := sample_rate },
              error := none }

/-- Modelled from the spec: `run_single_image_analysis`, the still-image
entry point (called from `_image_analysis_thread_worker`): the image is a
1-frame source; one measurement per ROI serves as both the average and the
peak series; frame-count metadata is degenerate (1 frame, 0 fps). -/
def run_single_image_analysis (morphOpen : Image → Image)
    (findContours : Image → List Contour) (source : Option Image)
    (background_level : ℕ) (min_area : ℚ) (metric_mode : String) : ResultsPackage :=
  match source with
  | none => { result := none, error := some AnalyzerError.cannotOpenSource }
  | some img =>
      let rois := detect_regions morphOpen findContours img background_level min_area
      if rois = [] then
        { result := none, error := some AnalyzerError.noRegionsDetected }
      else
        let series := track_well_intensities [img] rois metric_mode 1
        { result := some
            { well_rois := rois,
              average_intensity_data := series,
              peak_intensity_data := series,
              peak_results := analyze_peaks series metric_mode 1,
              total_frames := 1,
              fps := 0,
              sample_rate := 1 },
          error := none }

lemma le_npMax : ∀ {l : List ℚ}, ∀ x ∈ l, x ≤ npMax l := by
  intro l
  induction l with
  | nil => intro x hx; cases hx
  | cons v rest ih =>
    cases rest with
    | nil =>
      intro x hx
      rcases List.mem_singleton.mp hx with rfl
      simp [npMax]
    | cons w tail =>
      intro x hx
      rcases List.mem_cons.mp hx with rfl | hx
      · simp [npMax]
      · exact le_trans (ih x hx) (by simp [npMax])

lemma npMax_mem : ∀ {l : List ℚ}, l ≠ [] → npMax l ∈ l := by
  intro l
  induction l with
  | nil => intro h; exact absurd rfl h
  | cons v rest ih =>
    intro _
    cases rest with
    | nil => simp [npMax]
    | cons w tail =>
      rcases max_cases v (npMax (w :: tail)) with ⟨hm, _⟩ | ⟨hm, _⟩
      · simp [npMax, hm]
      · have : npMax (w :: tail) ∈ w :: tail := ih (by simp)
        simp only [npMax, hm]
        exact List.mem_cons_of_mem v this

lemma npArgmax_getElem? : ∀ {l : List ℚ}, l ≠ [] → l[npArgmax l]? = some (npMax l) := by
  intro l
  induction l with
  | nil => intro h; exact absurd rfl h
  | cons v rest ih =>
    intro _
    cases rest with
    | nil => simp [npMax, npArgmax]
    | cons w tail =>
      by_cases h : v < npMax (w :: tail)
      · have := ih (by simp)
        simp [npArgmax, npMax, h, max_eq_right (le_of_lt h), this]
      · have hm : max v (npMax (w :: tail)) = v := max_eq_left (le_of_not_lt h)
        simp [npArgmax, npMax, h, hm]

lemma npArgmax_first : ∀ {l : List ℚ}, ∀ j < npArgmax l, ∀ x, l[j]? = some x → x < npMax l := by
  intro l
  induction l with
  | nil => intro j hj; simp [npArgmax] at hj
  | cons v rest ih =>
    cases rest with
    | nil => intro j hj; simp [npArgmax] at hj
    | cons w tail =>
      intro j hj x hx
      by_cases h : v < npMax (w :: tail)
      · simp only [npArgmax, if_pos h] at hj
        have hmax : npMax (v :: w :: tail) = npMax (w :: tail) := by
          simp [npMax, max_eq_right (le_of_lt h)]
        rw [hmax]
        cases j with
        | zero =>
          simp only [List.getElem?_cons_zero, Option.some.injEq] at hx
          exact hx ▸ h
        | succ k =>
          simp only [List.getElem?_cons_succ] at hx
          exact ih k (Nat.lt_of_succ_lt_succ hj) x hx
      · simp only [npArgmax, if_neg h] at hj
        exact absurd hj (Nat.not_lt_zero j)


lemma analyzePeaksGo_complete (mode : String) (s : ℕ) :
    ∀ (data : List (List ℚ)) (i k : ℕ) (wd : List ℚ),
      data[k]? = some wd → wd ≠ [] →
      { well_id := i + k, intensity := npMax wd,
        frame := npArgmax wd * s, metric_mode := mode } ∈ analyzePeaksGo mode s data i := by
  intro data
  induction data with
  | nil => intro i k wd h; simp at h
  | cons first rest ih =>
    intro i k wd h hne
    cases k with
    | zero =>
      simp only [List.getElem?_cons_zero, Option.some.injEq] at h
      subst h
      cases first with
      | nil => exact absurd rfl hne
      | cons v vs => simp [analyzePeaksGo]
    | succ k =>
      simp only [List.getElem?_cons_succ] at h
      have hmem := ih (i + 1) k wd h hne
      have harith : i + 1 + k = i + (k + 1) := by omega
      rw [harith] at hmem
      cases first with
      | nil => exact hmem
      | cons v vs => exact List.mem_cons_of_mem _ hmem

lemma analyzePeaksGo_sound (mode : String) (s : ℕ) :
    ∀ (data : List (List ℚ)) (i : ℕ) (r : PeakResult),
      r ∈ analyzePeaksGo mode s data i →
      ∃ k wd, data[k]? = some wd ∧ wd ≠ [] ∧ r.well_id = i + k ∧
        r.intensity = npMax wd ∧ r.frame = npArgmax wd * s := by
  intro data
  induction data with
  | nil => intro i r h; simp [analyzePeaksGo] at h
  | cons first rest ih =>
    intro i r h
    cases first with
    | nil =>
      obtain ⟨k, wd, h1, h2, h3, h4, h5⟩ := ih (i + 1) r h
      exact ⟨k + 1, wd, by simpa using h1, h2, by omega, h4, h5⟩
    | cons v vs =>
      rcases List.mem_cons.mp h with rfl | h
      · exact ⟨0, v :: vs, by simp, by simp, by simp, rfl, rfl⟩
      · obtain ⟨k, wd, h1, h2, h3, h4, h5⟩ := ih (i + 1) r h
        exact ⟨k + 1, wd, by simpa using h1, h2, by omega, h4, h5⟩

lemma analyzePeaksGo_well_id_lb (mode : String) (s : ℕ) :
    ∀ (data : List (List ℚ)) (i : ℕ) (r : PeakResult),
      r ∈ analyzePeaksGo mode s data i → i ≤ r.well_id := by
  intro data i r h
  obtain ⟨k, _, _, _, h3, _, _⟩ := analyzePeaksGo_sound mode s data i r h
  omega

lemma analyzePeaksGo_pairwise (mode : String) (s : ℕ) :
    ∀ (data : List (List ℚ)) (i : ℕ),
      List.Pairwise (fun a b => a.well_id < b.well_id) (analyzePeaksGo mode s data i) := by
  intro data
  induction data with
  | nil => intro i; simp [analyzePeaksGo]
  | cons first rest ih =>
    intro i
    cases first with
    | nil => exact ih (i + 1)
    | cons v vs =>
      refine List.pairwise_cons.mpr ⟨?_, ih (i + 1)⟩
      intro b hb
      have := analyzePeaksGo_well_id_lb mode s rest (i + 1) b hb
      show i < b.well_id
      omega
lemma track_foldl_eq (mode : String) (rois : List Roi) :
    ∀ (l : List Image) (g : Roi → List ℚ),
      l.foldl
        (fun acc f =>
          List.zipWith (fun series r => series ++ [roiIntensity f r mode]) acc rois)
        (rois.map g)
      = rois.map (fun r => g r ++ l.map (fun f => roiIntensity f r mode)) := by
  intro l
  induction l with
  | nil => intro g; simp
  | cons f rest ih =>
    intro g
    have hstep :
        List.zipWith (fun series r => series ++ [roiIntensity f r mode]) (rois.map g) rois
          = rois.map (fun r => g r ++ [roiIntensity f r mode]) := by
      rw [List.zipWith_map_left, List.zipWith_same]
    rw [List.foldl_cons, hstep, ih (fun r => g r ++ [roiIntensity f r mode])]
    simp [List.append_assoc]

lemma track_well_intensities_eq_map (frames : List Image) (rois : List Roi)
    (mode : String) (s : ℕ) :
    track_well_intensities frames rois mode s
      = rois.map (fun r => (sampledFrames frames s).map (fun f => roiIntensity f r mode)) := by
  unfold track_well_intensities
  rw [track_foldl_eq mode rois (sampledFrames frames s) (fun _ => [])]
  simp

lemma ceil_div_succ (T s : ℕ) (hs : 0 < s) :
    (T + 1 + s - 1) / s = (T + s - 1) / s + (if T % s = 0 then 1 else 0) := by
  have hq := Nat.div_add_mod T s
  have hrs : T % s < s := Nat.mod_lt T hs
  have hk : s * (T / s + 1) = s * (T / s) + s := by rw [Nat.mul_succ]
  by_cases h : T % s = 0
  · have e1 : T + s - 1 = s * (T / s) + (s - 1) := by omega
    have e2 : T + 1 + s - 1 = s * (T / s + 1) + 0 := by rw [hk]; omega
    rw [e1, e2, Nat.mul_add_div hs, Nat.mul_add_div hs,
      Nat.div_eq_of_lt (show s - 1 < s by omega), Nat.zero_div]
    simp [h]
  · have e1 : T + s - 1 = s * (T / s + 1) + (T % s - 1) := by rw [hk]; omega
    have e2 : T + 1 + s - 1 = s * (T / s + 1) + T % s := by rw [hk]; omega
    rw [e1, e2, Nat.mul_add_div hs, Nat.mul_add_div hs,
      Nat.div_eq_of_lt (show T % s - 1 < s by omega), Nat.div_eq_of_lt hrs]
    simp [h]

lemma count_multiples (T s : ℕ) (hs : 0 < s) :
    ((List.range T).filter (fun i => i % s == 0)).length = (T + s - 1) / s := by
  induction T with
  | zero => simp [Nat.div_eq_of_lt (show s - 1 < s by omega)]
  | succ T ih =>
    rw [List.range_succ, List.filter_append, List.length_append, ih,
      ceil_div_succ T s hs]
    by_cases h : T % s = 0
    · simp [List.filter, beq_iff_eq, h]
    · have hb : (T % s == 0) = false := beq_eq_false_iff_ne.mpr h
      simp [List.filter, hb, h]

lemma length_sampledFrames (frames : List Image) (s : ℕ) (hs : 0 < s) :
    (sampledFrames frames s).length = (frames.length + s - 1) / s := by
  unfold sampledFrames
  rw [List.length_map]
  have hfm := List.filter_map (p := fun i => i % s == 0) Prod.fst frames.enum
  rw [List.enum_map_fst] at hfm
  have hlen : ((List.range frames.length).filter (fun i => i % s == 0)).length
      = (frames.enum.filter (fun p => p.1 % s == 0)).length := by
    rw [hfm, List.length_map]
    rfl
  rw [← hlen, count_multiples frames.length s hs]

lemma ceilDiv_bounds (T s : ℕ) (hs : 0 < s) :
    T ≤ s * ((T + s - 1) / s) ∧ s * ((T + s - 1) / s) < T + s := by
  have h := Nat.div_add_mod (T + s - 1) s
  have h2 : (T + s - 1) % s < s := Nat.mod_lt _ hs
  omega

lemma find_well_locations_rois_pairwise (contours : List Contour) (min_area : ℚ) :
    List.Pairwise (fun a b => a.y < b.y ∨ (a.y = b.y ∧ a.x ≤ b.x))
      (find_well_locations_rois contours min_area) := by
  have h := List.sorted_insertionSort roiKeyLe
    ((contours.filter (fun c => decide (min_area < c.area))).map
      (fun c => Roi.mk c.x c.y c.w c.h))
  exact h.imp (fun hab => hab)

lemma find_well_locations_rois_perm (contours : List Contour) (min_area : ℚ) :
    (find_well_locations_rois contours min_area).Perm
      ((contours.filter (fun c => decide (min_area < c.area))).map
        (fun c => Roi.mk c.x c.y c.w c.h)) := by
  have h := List.perm_insertionSort roiKeyLe
    ((contours.filter (fun c => decide (min_area < c.area))).map
      (fun c => Roi.mk c.x c.y c.w c.h))
  exact h

lemma npArgmax_lt_length {l : List ℚ} (h : l ≠ []) : npArgmax l < l.length :=
  (List.getElem?_eq_some.mp (npArgmax_getElem? h)).1

lemma readAllFrames_fail :
    ∀ (pre post : List ReadResult), (∀ r ∈ pre, r ≠ ReadResult.fail) →
      readAllFrames (pre ++ ReadResult.fail :: post)
        = Except.error AnalyzerError.midStreamReadError := by
  intro pre
  induction pre with
  | nil => intro post _; rfl
  | cons r rest ih =>
    intro post hpre
    cases r with
    | fail => exact absurd rfl (hpre ReadResult.fail (by simp))
    | frame f =>
      have hr := ih post (fun x hx => hpre x (List.mem_cons_of_mem _ hx))
      simp [readAllFrames, hr]

lemma readAllFrames_error_eq :
    ∀ (reads : List ReadResult) (e : AnalyzerError),
      readAllFrames reads = Except.error e → e = AnalyzerError.midStreamReadError := by
  intro reads
  induction reads with
  | nil => intro e h; simp [readAllFrames] at h
  | cons r rest ih =>
    intro e h
    cases r with
    | fail =>
      simp only [readAllFrames, Except.error.injEq] at h
      exact h.symm
    | frame f =>
      simp only [readAllFrames] at h
      cases hr : readAllFrames rest with
      | ok frames => rw [hr] at h; simp at h
      | error e2 => rw [hr] at h; simp at h; exact h ▸ ih e2 hr

lemma run_full_analysis_shape (morphOpen : Image → Image)
    (findContours : Image → List Contour) (source : Option VideoSource)
    (bg : ℕ) (m : ℚ) (mode : String) (s : ℕ) :
    ((run_full_analysis morphOpen findContours source bg m mode s).result = none ∧
      ((run_full_analysis morphOpen findContours source bg m mode s).error).isSome) ∨
    (((run_full_analysis morphOpen findContours source bg m mode s).result).isSome ∧
      (run_full_analysis morphOpen findContours source bg m mode s).error = none) := by
  cases source with
  | none => left; exact ⟨rfl, rfl⟩
  | some v =>
    cases hr : readAllFrames v.reads with
    | error e => left; simp [run_full_analysis, hr]
    | ok frames =>
      by_cases hrois : detect_regions morphOpen findContours (maxProjection frames) bg m = []
      · left; simp [run_full_analysis, hr, hrois]
      · right; simp [run_full_analysis, hr, hrois]

lemma run_single_image_analysis_shape (morphOpen : Image → Image)
    (findContours : Image → List Contour) (source : Option Image)
    (bg : ℕ) (m : ℚ) (mode : String) :
    ((run_single_image_analysis morphOpen findContours source bg m mode).result = none ∧
      ((run_single_image_analysis morphOpen findContours source bg m mode).error).isSome) ∨
    (((run_single_image_analysis morphOpen findContours source bg m mode).result).isSome ∧
      (run_single_image_analysis morphOpen findContours source bg m mode).error = none) := by
  cases source with
  | none => left; exact ⟨rfl, rfl⟩
  | some img =>
    by_cases hrois : detect_regions morphOpen findContours img bg m = []
    · left; simp [run_single_image_analysis, hrois]
    · right; simp [run_single_image_analysis, hrois]

/-- C5: for any two positions `i < j` of the ROI list returned by the
region detector, either the earlier ROI's top edge is strictly higher, or
the top edges coincide and the earlier ROI's left edge is not to the right:
top-to-bottom, then left-to-right ordering. -/
theorem find_well_locations_rois_ordered (contours : List Contour) (min_area : ℚ)
    (i j : ℕ) (a b : Roi) (hij : i < j)
    (ha : (find_well_locations_rois contours min_area)[i]? = some a)
    (hb : (find_well_locations_rois contours min_area)[j]? = some b) :
    a.y < b.y ∨ (a.y = b.y ∧ a.x ≤ b.x) := by
  have hp := find_well_locations_rois_pairwise contours min_area
  rw [List.pairwise_iff_getElem] at hp
  obtain ⟨hi, ha'⟩ := List.getElem?_eq_some.mp ha
  obtain ⟨hj, hb'⟩ := List.getElem?_eq_some.mp hb
  have := hp i j hi hj hij
  rw [ha', hb'] at this
  exact this

/-- C5 witness: on two concrete contours the returned list is ordered. -/
theorem find_well_locations_rois_ordered_witness :
    (Roi.mk 0 0 2 2).y < (Roi.mk 1 3 2 2).y ∨
      ((Roi.mk 0 0 2 2).y = (Roi.mk 1 3 2 2).y ∧ (Roi.mk 0 0 2 2).x ≤ (Roi.mk 1 3 2 2).x) :=
  find_well_locations_rois_ordered [⟨200, 1, 3, 2, 2⟩, ⟨200, 0, 0, 2, 2⟩] 100 0 1
    (Roi.mk 0 0 2 2) (Roi.mk 1 3 2 2) (by decide) (by decide) (by decide)

/-- C4 counterexample: with `min_area = 100`, a candidate contour whose
enclosed area is exactly 100 is discarded by the strict `>` filter, so
nothing is returned even though that area is not below `min_area`; the
claim that such a candidate is kept is false. -/
theorem area_filter_boundary_counterexample :
    find_well_locations_rois [⟨100, 0, 0, 10, 10⟩] 100 = [] ∧
      Roi.mk 0 0 10 10 ∉ find_well_locations_rois [⟨100, 0, 0, 10, 10⟩] 100 ∧
      ¬ ((100 : ℚ) < 100) := by
  refine ⟨by decide, ?_, by norm_num⟩
  intro hmem
  rw [show find_well_locations_rois [⟨100, 0, 0, 10, 10⟩] 100 = [] from by decide] at hmem
  exact List.not_mem_nil _ hmem

/-- C4 amended: a candidate region is kept exactly when its enclosed
contour area strictly exceeds `min_area` (so a candidate whose area equals
`min_area` is discarded); the returned ROIs are a permutation of the
bounding rectangles of exactly the strict survivors. -/
theorem area_filter_amended (contours : List Contour) (min_area : ℚ) :
    (find_well_locations_rois contours min_area).Perm
        ((contours.filter (fun c => decide (min_area < c.area))).map
          (fun c => Roi.mk c.x c.y c.w c.h)) ∧
    (∀ c ∈ contours, min_area < c.area →
        Roi.mk c.x c.y c.w c.h ∈ find_well_locations_rois contours min_area) ∧
    (∀ r ∈ find_well_locations_rois contours min_area,
        ∃ c ∈ contours, min_area < c.area ∧ r = Roi.mk c.x c.y c.w c.h) := by
  have hperm := find_well_locations_rois_perm contours min_area
  refine ⟨hperm, ?_, ?_⟩
  · intro c hc harea
    rw [hperm.mem_iff]
    exact List.mem_map_of_mem _ (List.mem_filter.mpr ⟨hc, by simpa using harea⟩)
  · intro r hr
    rw [hperm.mem_iff] at hr
    obtain ⟨c, hc, rfl⟩ := List.mem_map.mp hr
    obtain ⟨hc1, hc2⟩ := List.mem_filter.mp hc
    exact ⟨c, hc1, by simpa using hc2, rfl⟩

/-- C4 amended witness: a contour with area 101 > 100 is kept. -/
theorem area_filter_amended_witness :
    Roi.mk 0 0 10 10 ∈ find_well_locations_rois [⟨101, 0, 0, 10, 10⟩] 100 :=
  (area_filter_amended [⟨101, 0, 0, 10, 10⟩] 100).2.1 ⟨101, 0, 0, 10, 10⟩ (by decide)
    (by norm_num)

/-- C1: for every series list, `analyze_peaks` reports, for each non-empty
series, a record whose peak value is the maximum sample of that series
(a member bounding every sample) and whose source frame index is the
earliest sample index achieving that maximum, multiplied by the stride. -/
theorem analyze_peaks_peak_correct (data : List (List ℚ)) (mode : String) (s : ℕ)
    (i : ℕ) (wd : List ℚ) (h1 : data[i]? = some wd) (h2 : wd ≠ []) :
    ∃ r ∈ analyze_peaks data mode s, r.well_id = i ∧
      r.intensity ∈ wd ∧ (∀ x ∈ wd, x ≤ r.intensity) ∧
      ∃ j, wd[j]? = some r.intensity ∧
        (∀ k < j, ∀ x, wd[k]? = some x → x < r.intensity) ∧ r.frame = j * s := by
  have hmem := analyzePeaksGo_complete mode s data 0 i wd h1 h2
  rw [Nat.zero_add] at hmem
  exact ⟨_, hmem, rfl, npMax_mem h2, le_npMax, npArgmax wd, npArgmax_getElem? h2,
    fun k hk x hx => npArgmax_first k hk x hx, rfl⟩

/-- C1 witness at a concrete series with a tied maximum. -/
theorem analyze_peaks_peak_correct_witness :
    ∃ r ∈ analyze_peaks [[1, 3, 3, 2]] "average" 2, r.well_id = 0 ∧
      r.intensity ∈ [(1 : ℚ), 3, 3, 2] ∧ (∀ x ∈ [(1 : ℚ), 3, 3, 2], x ≤ r.intensity) ∧
      ∃ j, [(1 : ℚ), 3, 3, 2][j]? = some r.intensity ∧
        (∀ k < j, ∀ x, [(1 : ℚ), 3, 3, 2][k]? = some x → x < r.intensity) ∧
        r.frame = j * 2 :=
  analyze_peaks_peak_correct [[1, 3, 3, 2]] "average" 2 0 [1, 3, 3, 2] rfl (by simp)

/-- C10: every peak record's `well_id` is the zero-based position of its
own series in the input (so skipping an empty series shifts no later id),
the output is strictly increasing in `well_id`, and every non-empty series
contributes a record at its own index. -/
theorem analyze_peaks_well_id_assignment (data : List (List ℚ)) (mode : String) (s : ℕ) :
    (∀ r ∈ analyze_peaks data mode s,
        ∃ wd, data[r.well_id]? = some wd ∧ wd ≠ [] ∧ r.intensity = npMax wd ∧
          r.frame = npArgmax wd * s) ∧
    List.Pairwise (fun a b => a.well_id < b.well_id) (analyze_peaks data mode s) ∧
    (∀ (i : ℕ) (wd : List ℚ), data[i]? = some wd → wd ≠ [] →
        ∃ r ∈ analyze_peaks data mode s, r.well_id = i) := by
  refine ⟨?_, analyzePeaksGo_pairwise mode s data 0, ?_⟩
  · intro r hr
    obtain ⟨k, wd, hk1, hk2, hk3, hk4, hk5⟩ := analyzePeaksGo_sound mode s data 0 r hr
    rw [Nat.zero_add] at hk3
    exact ⟨wd, hk3 ▸ hk1, hk2, hk4, hk5⟩
  · intro i wd h1 h2
    have hmem := analyzePeaksGo_complete mode s data 0 i wd h1 h2
    rw [Nat.zero_add] at hmem
    exact ⟨_, hmem, rfl⟩

/-- C10 witness: the series after a skipped empty series keeps its own
positional index as `well_id`. -/
theorem analyze_peaks_well_id_assignment_witness :
    ∃ r ∈ analyze_peaks [[1], [], [2, 3]] "average" 1, r.well_id = 2 :=
  (analyze_peaks_well_id_assignment [[1], [], [2, 3]] "average" 1).2.2 2 [2, 3]
    rfl (by simp)

/-- C6: in a video run with a positive stride, the sampler yields one
series per ROI in input order; all series have the same length, the number
of sampled frames, `⌈T / s⌉ = (T + s - 1) / s` (the two division bounds pin
that value down as the ceiling of `T / s`); and series `k` is the sample
sequence of ROI `k` over the sampled frames. -/
theorem track_series_shape (frames : List Image) (rois : List Roi) (mode : String)
    (s : ℕ) (hs : 0 < s) (hrois : rois ≠ []) :
    (track_well_intensities frames rois mode s).length = rois.length ∧
    (sampledFrames frames s).length = (frames.length + s - 1) / s ∧
    (∀ series ∈ track_well_intensities frames rois mode s,
        series.length = (frames.length + s - 1) / s) ∧
    frames.length ≤ s * ((frames.length + s - 1) / s) ∧
    s * ((frames.length + s - 1) / s) < frames.length + s ∧
    (∀ (k : ℕ) (r : Roi), rois[k]? = some r →
        (track_well_intensities frames rois mode s)[k]?
          = some ((sampledFrames frames s).map (fun f => roiIntensity f r mode))) := by
  obtain ⟨hb1, hb2⟩ := ceilDiv_bounds frames.length s hs
  rw [track_well_intensities_eq_map]
  refine ⟨by simp, length_sampledFrames frames s hs, ?_, hb1, hb2, ?_⟩
  · intro series hser
    obtain ⟨r, _, rfl⟩ := List.mem_map.mp hser
    rw [List.length_map, length_sampledFrames frames s hs]
  · intro k r hk
    rw [List.getElem?_map, hk]
    rfl

/-- C6 witness: three one-pixel frames at stride 2 give a single series of
length 2 = ceil(3 / 2). -/
theorem track_series_shape_witness :
    (track_well_intensities [[[1]], [[2]], [[3]]] [Roi.mk 0 0 1 1] "average" 2).length
        = [Roi.mk 0 0 1 1].length ∧
    (sampledFrames [[[1]], [[2]], [[3]]] 2).length
        = (([[[1]], [[2]], [[3]]] : List Image).length + 2 - 1) / 2 ∧
    (∀ series ∈ track_well_intensities [[[1]], [[2]], [[3]]] [Roi.mk 0 0 1 1] "average" 2,
        series.length = (([[[1]], [[2]], [[3]]] : List Image).length + 2 - 1) / 2) ∧
    ([[[1]], [[2]], [[3]]] : List Image).length
        ≤ 2 * ((([[[1]], [[2]], [[3]]] : List Image).length + 2 - 1) / 2) ∧
    2 * ((([[[1]], [[2]], [[3]]] : List Image).length + 2 - 1) / 2)
        < ([[[1]], [[2]], [[3]]] : List Image).length + 2 ∧
    (∀ (k : ℕ) (r : Roi), [Roi.mk 0 0 1 1][k]? = some r →
        (track_well_intensities [[[1]], [[2]], [[3]]] [Roi.mk 0 0 1 1] "average" 2)[k]?
          = some ((sampledFrames [[[1]], [[2]], [[3]]] 2).map
              (fun f => roiIntensity f r "average"))) :=
  track_series_shape [[[1]], [[2]], [[3]]] [Roi.mk 0 0 1 1] "average" 2
    (by decide) (by decide)

/-- C9: whenever an ROI's rectangle has an empty intersection with a
sampled frame (the NumPy slice is zero-size, e.g. the ROI lies outside the
frame), the sampler records the intensity 0 for that ROI at that sample
instead of failing, so sampling is total over arbitrary rectangles. -/
theorem empty_slice_samples_zero (frames : List Image) (rois : List Roi) (mode : String)
    (s : ℕ) (i k : ℕ) (r : Roi) (f : Image)
    (h1 : rois[i]? = some r) (h2 : (sampledFrames frames s)[k]? = some f)
    (h3 : regionSize (sliceRegion f r) = 0) :
    ∃ series, (track_well_intensities frames rois mode s)[i]? = some series ∧
      series[k]? = some 0 := by
  rw [track_well_intensities_eq_map]
  refine ⟨_, by rw [List.getElem?_map, h1]; rfl, ?_⟩
  rw [List.getElem?_map, h2]
  simp [roiIntensity, h3]

/-- C9 witness: an ROI entirely outside a 2-by-2 frame samples 0. -/
theorem empty_slice_samples_zero_witness :
    ∃ series,
      (track_well_intensities [[[1, 2], [3, 4]]] [Roi.mk 5 5 2 2] "average" 1)[0]?
        = some series ∧ series[0]? = some 0 :=
  empty_slice_samples_zero [[[1, 2], [3, 4]]] [Roi.mk 5 5 2 2] "average" 1 0 0
    (Roi.mk 5 5 2 2) [[1, 2], [3, 4]] rfl (by decide) (by decide)

/-- C3 (spec-modelled): before thresholding, the detector's background
correction maps every pixel to `max(0, original - background_level)`:
clamped at zero, never negative, never wrapping around. -/
theorem correct_image_clamped (img : Image) (bg : ℕ) (i j p : ℕ)
    (h : (img[i]?.bind (fun row => row[j]?)) = some p) :
    ∃ q : ℕ, ((correct_image img bg)[i]?.bind (fun row => row[j]?)) = some q ∧
      (q : ℤ) = max 0 ((p : ℤ) - (bg : ℤ)) := by
  obtain ⟨row, hrow, hp⟩ := Option.bind_eq_some.mp h
  refine ⟨p - bg, ?_, by omega⟩
  unfold correct_image
  rw [List.getElem?_map, hrow]
  simp only [Option.map_some', Option.some_bind, List.getElem?_map, hp]

/-- C3 witness: pixel 5 with background level 9 corrects to 0. -/
theorem correct_image_clamped_witness :
    ∃ q : ℕ, ((correct_image [[5]] 9)[0]?.bind (fun row => row[0]?)) = some q ∧
      (q : ℤ) = max 0 ((5 : ℤ) - (9 : ℤ)) :=
  correct_image_clamped [[5]] 9 0 0 5 rfl

/-- C2 (spec-modelled): the detector's binarization threshold is chosen
from the image's own histogram as the cut in 0..255 maximizing the
between-class (Otsu) variance, and the binarization applies exactly that
data-dependent cut rather than a fixed constant. -/
theorem otsu_binarize_maximizes (img : Image) :
    otsuThreshold (histogram img) < 256 ∧
    (∀ u : ℕ, u < 256 →
        betweenClassVariance (histogram img) u
          ≤ betweenClassVariance (histogram img) (otsuThreshold (histogram img))) ∧
    otsu_binarize img = binarize img (otsuThreshold (histogram img)) := by
  have hne : (List.range 256).map (fun t => betweenClassVariance (histogram img) t) ≠ [] := by
    intro hc
    have hlc := congrArg List.length hc
    simp at hlc
  have hlt : npArgmax ((List.range 256).map
      (fun t => betweenClassVariance (histogram img) t)) < 256 := by
    have h := npArgmax_lt_length hne
    simpa using h
  have hb : otsuThreshold (histogram img) < 256 := hlt
  refine ⟨hb, ?_, rfl⟩
  intro u hu
  have hget := npArgmax_getElem? hne
  rw [List.getElem?_map, List.getElem?_range hlt] at hget
  simp only [Option.map_some', Option.some.injEq] at hget
  have hval : betweenClassVariance (histogram img) (otsuThreshold (histogram img))
      = npMax ((List.range 256).map (fun t => betweenClassVariance (histogram img) t)) :=
    hget
  have hmem : betweenClassVariance (histogram img) u
      ∈ (List.range 256).map (fun t => betweenClassVariance (histogram img) t) :=
    List.mem_map_of_mem _ (List.mem_range.mpr hu)
  rw [hval]
  exact le_npMax _ hmem

/-- C2 witness: for a concrete two-pixel image, the cut at 0 does not beat
the chosen threshold. -/
theorem otsu_binarize_maximizes_witness :
    betweenClassVariance (histogram [[0, 255]]) 0
      ≤ betweenClassVariance (histogram [[0, 255]]) (otsuThreshold (histogram [[0, 255]])) :=
  (otsu_binarize_maximizes [[0, 255]]).2.1 0 (by decide)

/-- C7 (spec-modelled): a frame decode failure after a successful open
aborts the sampling pass with the mid-stream read error; no partial series
list is ever returned, and a whole video invocation over such a source
fails with only the error slot set. -/
theorem mid_stream_read_failure_aborts (pre post : List ReadResult) (rois : List Roi)
    (mode : String) (s : ℕ) (hpre : ∀ r ∈ pre, r ≠ ReadResult.fail) :
    sample_pass (pre ++ ReadResult.fail :: post) rois mode s
        = Except.error AnalyzerError.midStreamReadError ∧
    (∀ data : List (List ℚ),
        sample_pass (pre ++ ReadResult.fail :: post) rois mode s ≠ Except.ok data) ∧
    (∀ (morphOpen : Image → Image) (findContours : Image → List Contour)
        (v : VideoSource) (bg : ℕ) (m : ℚ),
        v.reads = pre ++ ReadResult.fail :: post →
          run_full_analysis morphOpen findContours (some v) bg m mode s
            = { result := none, error := some AnalyzerError.midStreamReadError }) := by
  have hread := readAllFrames_fail pre post hpre
  refine ⟨?_, ?_, ?_⟩
  · simp [sample_pass, hread]
  · intro data
    simp [sample_pass, hread]
  · intro morphOpen findContours v bg m hv
    simp [run_full_analysis, hv, hread]

/-- C7 witness: one good frame followed by a failing read. -/
theorem mid_stream_read_failure_aborts_witness :
    sample_pass ([ReadResult.frame [[1]]] ++ ReadResult.fail :: []) [Roi.mk 0 0 1 1]
        "average" 1 = Except.error AnalyzerError.midStreamReadError ∧
    (∀ data : List (List ℚ),
        sample_pass ([ReadResult.frame [[1]]] ++ ReadResult.fail :: []) [Roi.mk 0 0 1 1]
          "average" 1 ≠ Except.ok data) ∧
    (∀ (morphOpen : Image → Image) (findContours : Image → List Contour)
        (v : VideoSource) (bg : ℕ) (m : ℚ),
        v.reads = [ReadResult.frame [[1]]] ++ ReadResult.fail :: [] →
          run_full_analysis morphOpen findContours (some v) bg m "average" 1
            = { result := none, error := some AnalyzerError.midStreamReadError }) :=
  mid_stream_read_failure_aborts [ReadResult.frame [[1]]] [] [Roi.mk 0 0 1 1] "average" 1
    (by decide)

/-- C8 (spec-modelled): both orchestrator entry points return a Results
Package in which exactly one of the result and error slots is set, never
both and never neither, and any error carried is one of the three taxonomy
values: cannot open source, no regions detected, read failure mid-stream. -/
theorem orchestrator_exactly_one_of_result_error
    (morphOpen : Image → Image) (findContours : Image → List Contour)
    (vsource : Option VideoSource) (isource : Option Image)
    (bg : ℕ) (m : ℚ) (mode : String) (s : ℕ) :
    (((run_full_analysis morphOpen findContours vsource bg m mode s).result.isSome ∧
        (run_full_analysis morphOpen findContours vsource bg m mode s).error = none) ∨
      ((run_full_analysis morphOpen findContours vsource bg m mode s).result = none ∧
        (run_full_analysis morphOpen findContours vsource bg m mode s).error.isSome)) ∧
    ¬ ((run_full_analysis morphOpen findContours vsource bg m mode s).result.isSome ∧
        (run_full_analysis morphOpen findContours vsource bg m mode s).error.isSome) ∧
    (((run_single_image_analysis morphOpen findContours isource bg m mode).result.isSome ∧
        (run_single_image_analysis morphOpen findContours isource bg m mode).error = none) ∨
      ((run_single_image_analysis morphOpen findContours isource bg m mode).result = none ∧
        (run_single_image_analysis morphOpen findContours isource bg m mode).error.isSome)) ∧
    ¬ ((run_single_image_analysis morphOpen findContours isource bg m mode).result.isSome ∧
        (run_single_image_analysis morphOpen findContours isource bg m mode).error.isSome) ∧
    (∀ e : AnalyzerError,
        ((run_full_analysis morphOpen findContours vsource bg m mode s).error = some e ∨
          (run_single_image_analysis morphOpen findContours isource bg m mode).error
            = some e) →
        e = AnalyzerError.cannotOpenSource ∨ e = AnalyzerError.noRegionsDetected ∨
          e = AnalyzerError.midStreamReadError) := by
  refine ⟨?_, ?_, ?_, ?_, ?_⟩
  · rcases run_full_analysis_shape morphOpen findContours vsource bg m mode s with h | h
    · exact Or.inr h
    · exact Or.inl h
  · rcases run_full_analysis_shape morphOpen findContours vsource bg m mode s with h | h
    · rintro ⟨ha, _⟩
      rw [h.1] at ha
      exact absurd ha (by simp)
    · rintro ⟨_, hb⟩
      rw [h.2] at hb
      exact absurd hb (by simp)
  · rcases run_single_image_analysis_shape morphOpen findContours isource bg m mode with h | h
    · exact Or.inr h
    · exact Or.inl h
  · rcases run_single_image_analysis_shape morphOpen findContours isource bg m mode with h | h
    · rintro ⟨ha, _⟩
      rw [h.1] at ha
      exact absurd ha (by simp)
    · rintro ⟨_, hb⟩
      rw [h.2] at hb
      exact absurd hb (by simp)
  · intro e _
    cases e
    · exact Or.inl rfl
    · exact Or.inr (Or.inl rfl)
    · exact Or.inr (Or.inr rfl)

/-- C8 witness: with an unopenable video source the carried error is in
the taxonomy. -/
theorem orchestrator_exactly_one_of_result_error_witness :
    AnalyzerError.cannotOpenSource = AnalyzerError.cannotOpenSource ∨
      AnalyzerError.cannotOpenSource = AnalyzerError.noRegionsDetected ∨
        AnalyzerError.cannotOpenSource = AnalyzerError.midStreamReadError :=
  (orchestrator_exactly_one_of_result_error (fun i => i) (fun _ => []) none none 0 100
    "average" 1).2.2.2.2 AnalyzerError.cannotOpenSource (Or.inl rfl)
